import Mathlib

/-!
Verification of the tabular query pipeline shared by the four dashboard
apps in this repository (retail sales, Titanic, e-commerce, Netflix).

The shallow embedding below translates the data-manipulation core of each
app into Lean:

* `Value`, `Row`, `Table` — the in-memory table model: rows are ordered
  lists of (column name, cell) pairs, cells are numbers, strings or an
  explicit missing tag (pandas `NaN`).
* `Pred`, `rowSat`, `filterTable` — the sidebar filter pipeline
  (`streamlit_app.py` `main`, `app.py` `filtered_df`,
  `netflix_app.py` `filtered_df`): membership filters (`isin`), inclusive
  range filters (`between`), and the two variants that explicitly keep
  missing values (`| df['Age'].isna()`, `| df['rating'].isna()`).
* `Reduction`, `reduceNum`, `aggregate` — the `groupby(...).agg(...)`
  calls, with pandas skip-missing semantics and missing group keys dropped.
* `splitChars`, `splitOnSep`, series `dropna`/`split`/`explode` — the
  Netflix `filtered_df['country'].dropna().str.split(', ').explode()`
  pipeline (Python `str.split` with an explicit separator).
* `ERow`, `ECRow`, `cleanData` — the e-commerce `clean_data` function
  (drop missing CustomerID, fill Description, drop duplicates keeping the
  first occurrence, convert CustomerID to int, parse the raw InvoiceDate
  string, derive Year/Month/TotalPrice). `cleanData` is parametrised over
  the `pd.to_datetime` parser because parsing runs after `drop_duplicates`,
  so the dedup compares date strings and the parse can fail or collapse
  distinct strings.
* `survivalRateMetric`, `pivotHeatmap` — the two Titanic views cited for
  empty-result behaviour.
* `pearson`, `topCorrelations` — the retail `show_correlations` loop over
  the Pearson correlation matrix of the non-calendar numeric columns.
-/

namespace Dash

/-- A cell of a table: a number, a string, or an explicitly tagged missing
value (pandas `NaN`). -/
inductive Value
  | num (q : ℚ)
  | str (s : String)
  | missing
deriving DecidableEq, Repr

/-- A row: an ordered association list from column name to cell. -/
abbrev Row := List (String × Value)

/-- A table: a declared column set plus the rows. -/
structure Table where
  cols : List String
  rows : List Row
deriving DecidableEq, Repr

/-- Cell access; a column absent from the row reads as missing. -/
def getCell (r : Row) (c : String) : Value :=
  (List.lookup c r).getD Value.missing

/-- The filter predicates the four sidebars build: membership
(`df[col].isin(vs)`), inclusive numeric range (`df[col].between(lo, hi)`),
and the two variants that explicitly keep missing values
(`df['Age'].between(lo, hi) | df['Age'].isna()` in the Titanic app,
`df['rating'].isin(vs) | df['rating'].isna()` in the Netflix app). -/
inductive Pred
  | isin (c : String) (allowed : List Value)
  | between (c : String) (lo hi : ℚ)
  | betweenOrNa (c : String) (lo hi : ℚ)
  | isinOrNa (c : String) (allowed : List Value)
deriving DecidableEq, Repr

/-- The column a predicate filters on. -/
def Pred.onCol : Pred → String
  | .isin c _ => c
  | .between c _ _ => c
  | .betweenOrNa c _ _ => c
  | .isinOrNa c _ => c

/-- Pandas `Series.between(lo, hi, inclusive='both')` on one cell: false on
a missing or non-numeric cell. -/
def numBetween (lo : ℚ) (v : Value) (hi : ℚ) : Bool :=
  match v with
  | .num q => decide (lo ≤ q) && decide (q ≤ hi)
  | _ => false

/-- Whether a row passes one predicate, mirroring the boolean masks the
apps build. -/
def rowSat (p : Pred) (r : Row) : Bool :=
  match p with
  | .isin c allowed => allowed.contains (getCell r c)
  | .between c lo hi => numBetween lo (getCell r c) hi
  | .betweenOrNa c lo hi => numBetween lo (getCell r c) hi || (getCell r c == Value.missing)
  | .isinOrNa c allowed => allowed.contains (getCell r c) || (getCell r c == Value.missing)

/-- The retail app's guarded filter pipeline (`streamlit_app.py` lines
120–147): each filter is applied only under an `if col in df.columns`
presence check; an absent column leaves the frame untouched. -/
def filterTable (t : Table) (preds : List Pred) : Table :=
  preds.foldl
    (fun acc p =>
      if p.onCol ∈ acc.cols then { acc with rows := acc.rows.filter (rowSat p) } else acc)
    t

/-- Keep-first deduplication, accumulating the values already seen. -/
def dedupFirstAux {α : Type} [DecidableEq α] : List α → List α → List α
  | [], _ => []
  | x :: xs, seen => if x ∈ seen then dedupFirstAux xs seen else x :: dedupFirstAux xs (x :: seen)

/-- Pandas keep-first deduplication (`drop_duplicates`, and the distinct
group keys of `groupby`). -/
def dedupFirst {α : Type} [DecidableEq α] (l : List α) : List α :=
  dedupFirstAux l []

/-- The reductions the aggregation calls of the apps use (the sample
standard deviation is modelled separately, see `stdRed`). -/
inductive Reduction
  | sum | mean | count | min | max
deriving DecidableEq, Repr

/-- The numeric contents of a list of cells: non-numeric and missing cells
are dropped, which is how every pandas reduction with default `skipna`
sees a column. -/
def numsOf (vs : List Value) : List ℚ :=
  vs.filterMap (fun v => match v with | .num q => some q | _ => none)

/-- A reduction over plain numbers; `none` models the `NaN` result pandas
returns for an empty mean/min/max. -/
def reduceNum : Reduction → List ℚ → Option ℚ
  | .sum, l => some l.sum
  | .mean, l => if l.isEmpty then none else some (l.sum / l.length)
  | .count, l => some l.length
  | .min, l => match l with | [] => none | x :: xs => some (xs.foldl Min.min x)
  | .max, l => match l with | [] => none | x :: xs => some (xs.foldl Max.max x)

/-- A reduction applied to a column of cells: pandas skip-missing
semantics — the reduction sees only the numeric, non-missing cells. -/
def applyReduction (red : Reduction) (vs : List Value) : Option ℚ :=
  reduceNum red (numsOf vs)

/-- Pandas sample standard deviation (`std`, `ddof=1`) over a column of
cells, skipping missing values; `none` when fewer than two values remain. -/
noncomputable def stdRed (vs : List Value) : Option ℝ :=
  let l := numsOf vs
  if l.length ≤ 1 then none
  else some (Real.sqrt ((l.map (fun x => ((x : ℝ) - (l.sum : ℝ) / l.length) ^ 2)).sum
    / ((l.length : ℝ) - 1)))

/-- Rounding to two decimals as the dashboards' `.round(2)` display does. -/
def round2 (q : ℚ) : ℚ := (round (q * 100) : ℤ) / 100

/-- The distinct group keys of a column in first-seen order; pandas
`groupby` drops rows whose group key is missing. -/
def groupKeys (t : Table) (g : String) : List Value :=
  dedupFirst ((t.rows.map (fun r => getCell r g)).filter (fun v => v != Value.missing))

/-- The metric column's cells of one group. -/
def groupCells (t : Table) (g : String) (k : Value) (m : String) : List Value :=
  (t.rows.filter (fun r => getCell r g == k)).map (fun r => getCell r m)

/-- The `df.groupby(g).agg({m: red})` calls of the apps: one output row per
distinct group key, carrying the reduction of the metric column within the
group. -/
def aggregate (t : Table) (g m : String) (red : Reduction) : List (Value × Option ℚ) :=
  (groupKeys t g).map (fun k => (k, applyReduction red (groupCells t g k m)))

/-! ### The Netflix multi-value explode pipeline -/

/-- Splitting a character list on every non-overlapping occurrence of a
non-empty separator, scanning left to right — the behaviour of Python's
`str.split(sep)` which pandas `Series.str.split` applies cellwise. -/
def splitChars (sep : List Char) (s : List Char) : List (List Char) :=
  match s with
  | [] => [[]]
  | c :: rest =>
    if sep.length ≠ 0 ∧ (c :: rest).take sep.length = sep then
      [] :: splitChars sep (rest.drop (sep.length - 1))
    else
      match splitChars sep rest with
      | [] => [[c]]
      | g :: gs => (c :: g) :: gs
termination_by s.length
decreasing_by
  · simp only [List.length_cons, List.length_drop]
    omega
  · simp only [List.length_cons]
    omega

/-- Python `s.split(sep)` for a non-empty separator (an empty separator is
an error in Python; it is mapped to the whole string here so the function
stays total). -/
def splitOnSep (s sep : String) : List String :=
  if sep.toList.isEmpty then [s]
  else (splitChars sep.toList s.toList).map (fun cs => ⟨cs⟩)

/-- A pandas Series of optional strings, tagged with its index so each
element remembers which original row it belongs to. -/
abbrev StrSeries := List (ℕ × Option String)

/-- `Series.dropna()`: rows with a missing cell are removed, indices kept. -/
def seriesDropna (s : StrSeries) : List (ℕ × String) :=
  s.filterMap (fun p => p.2.map (fun v => (p.1, v)))

/-- `Series.str.split(sep)` applied cellwise. -/
def seriesSplit (sep : String) (s : List (ℕ × String)) : List (ℕ × List String) :=
  s.map (fun p => (p.1, splitOnSep p.2 sep))

/-- `Series.explode()`: each list cell becomes one output row per element,
keeping the original row's index. -/
def seriesExplode (s : List (ℕ × List String)) : List (ℕ × String) :=
  s.flatMap (fun p => p.2.map (fun v => (p.1, v)))

/-- The Netflix pipeline
`filtered_df['country'].dropna().str.split(', ').explode()`
(netflix_app.py lines 273–274 and, without missing cells, 293–294). -/
def explodeMultiValue (sep : String) (s : StrSeries) : List (ℕ × String) :=
  seriesExplode (seriesSplit sep (seriesDropna s))

/-! ### The e-commerce cleaning pipeline -/

/-- A calendar timestamp as pandas `to_datetime` yields it. -/
structure DateT where
  year : ℤ
  month : ℤ
  day : ℤ
deriving DecidableEq, Repr

/-- A raw `OnlineRetail.csv` row as `read_csv` loads it: `Description` and
`CustomerID` are the columns with missing values (CustomerID reads as
float), and `InvoiceDate` is still a raw string — `pd.to_datetime` parses
it only inside `clean_data` (line 91), after `drop_duplicates` (line 88),
so deduplication compares the strings, not the timestamps. -/
structure ERow where
  invoiceNo : String
  stockCode : String
  description : Option String
  quantity : ℚ
  invoiceDate : String
  unitPrice : ℚ
  customerID : Option ℚ
  country : String
deriving DecidableEq, Repr

/-- A cleaned row: `Description` filled, `CustomerID` an integer, plus the
derived `Year`, `Month` and `TotalPrice` columns. -/
structure ECRow where
  invoiceNo : String
  stockCode : String
  description : String
  quantity : ℚ
  invoiceDate : DateT
  unitPrice : ℚ
  customerID : ℤ
  country : String
  year : ℤ
  month : ℤ
  totalPrice : ℚ
deriving DecidableEq, Repr

/-- Python `int()` on a float value: truncation of the rational. -/
def astypeInt (q : ℚ) : ℤ := q.num / (q.den : ℤ)

/-- The conversion / derived-column steps of `clean_data` on one row
(lines 90–95), parametrised over the `pd.to_datetime` string parser:
`astype(int)` on `CustomerID`, `to_datetime` on `InvoiceDate`, then the
derived `Year`, `Month` and `TotalPrice` columns. `none` when `CustomerID`
is missing (pandas `astype(int)` raises) or the date string does not parse
(pandas `to_datetime` raises). -/
def convertRow (parse : String → Option DateT) (r : ERow) : Option ECRow :=
  match r.customerID, parse r.invoiceDate with
  | some q, some d =>
    some
      { invoiceNo := r.invoiceNo
        stockCode := r.stockCode
        description := r.description.getD "No Description"
        quantity := r.quantity
        invoiceDate := d
        unitPrice := r.unitPrice
        customerID := astypeInt q
        country := r.country
        year := d.year
        month := d.month
        totalPrice := r.quantity * r.unitPrice }
  | _, _ => none

/-- Applying a fallible conversion to every element: the whole list
converts only when every element does (as a columnwise `astype(int)`
either converts the whole column or raises). -/
def traverseOption {α β : Type} (f : α → Option β) : List α → Option (List β)
  | [] => some []
  | x :: xs =>
    match f x, traverseOption f xs with
    | some y, some ys => some (y :: ys)
    | _, _ => none

/-- `clean_data` (ecommerce_app.py lines 80–96), parametrised over the
`pd.to_datetime` parser it calls: drop rows with missing `CustomerID`,
fill missing `Description`, drop duplicate rows keeping the first
occurrence (comparing the raw rows, date strings included), then convert
`CustomerID` to int, parse `InvoiceDate`, and derive `Year`, `Month` and
`TotalPrice = Quantity * UnitPrice`. -/
def cleanData (parse : String → Option DateT) (rows : List ERow) : Option (List ECRow) :=
  let s1 := rows.filter (fun r => r.customerID.isSome)
  let s2 := s1.map (fun r => { r with description := some (r.description.getD "No Description") })
  let s3 := dedupFirst s2
  traverseOption (convertRow parse) s3

/-! ### The retail load step's derived columns -/

/-- A raw retail row restricted to the fields the derived columns read:
the parsed `Date` and the hour of the parsed `Time`. -/
structure RetSrcRow where
  date : DateT
  timeHour : ℤ
  total : ℚ
deriving DecidableEq, Repr

/-- A loaded retail row with the calendar columns `load_data` derives. -/
structure RetRow where
  date : DateT
  timeHour : ℤ
  total : ℚ
  year : ℤ
  month : ℤ
  day : ℤ
  hour : ℤ
deriving DecidableEq, Repr

/-- `load_data` (streamlit_app.py lines 42–63) restricted to its derived
calendar columns: `Year`, `Month`, `Day` from `Date`, `Hour` from `Time`. -/
def loadRetail (rows : List RetSrcRow) : List RetRow :=
  rows.map (fun r =>
    { date := r.date, timeHour := r.timeHour, total := r.total,
      year := r.date.year, month := r.date.month, day := r.date.day, hour := r.timeHour })

/-! ### The two Titanic views cited for empty-result behaviour -/

/-- What a view renders: a non-fatal "no data" warning, a scalar metric
(`none` models the `NaN` an empty mean produces), or a chart. -/
inductive ViewOut
  | noData (msg : String)
  | metricOut (v : Option ℚ)
  | chart (cells : List ((Value × Value) × Option ℚ))
deriving DecidableEq, Repr

/-- Whether a view output is the "no data" degradation. -/
def isNoData : ViewOut → Bool
  | .noData _ => true
  | _ => false

/-- The key-metrics survival rate (app.py lines 208–215):
`filtered_df['Survived'].mean() * 100` rendered unconditionally. -/
def survivalRateMetric (rows : List Row) : ViewOut :=
  .metricOut ((reduceNum .mean (numsOf (rows.map (fun r => getCell r "Survived")))).map (· * 100))

/-- The distinct (Sex, Pclass) group-key pairs; `groupby` drops a row when
either key is missing. -/
def pairKeys (rows : List Row) : List (Value × Value) :=
  dedupFirst (rows.filterMap (fun r =>
    match getCell r "Sex", getCell r "Pclass" with
    | Value.missing, _ => none
    | _, Value.missing => none
    | a, b => some (a, b)))

/-- The survival heatmap (app.py lines 362–385): the pivot of mean survival
by (Sex, Pclass); when the pivot is empty the view degrades to a warning. -/
def pivotHeatmap (rows : List Row) : ViewOut :=
  let keys := pairKeys rows
  if keys.isEmpty then .noData "No data available for heatmap with current filters."
  else .chart (keys.map (fun k =>
    (k, (reduceNum .mean (numsOf ((rows.filter (fun r =>
          getCell r "Sex" == k.1 && getCell r "Pclass" == k.2)).map
          (fun r => getCell r "Survived")))).map (· * 100))))

/-! ### The retail correlation view -/

/-- A retail column for the correlation view: numeric (real-valued) or
non-numeric, as `select_dtypes(include=[np.number])` distinguishes them. -/
inductive RColData
  | nums (vs : List ℝ)
  | strs (vs : List String)

/-- A column-oriented table for the correlation view. -/
abbrev RTable := List (String × RColData)

/-- The numeric columns in original column order. -/
def numericalCols (t : RTable) : List (String × List ℝ) :=
  t.filterMap (fun c => match c.2 with | .nums vs => some (c.1, vs) | _ => none)

/-- The calendar-derived integer columns `show_correlations` removes
(streamlit_app.py line 465). -/
def calendarExcluded : List String := ["Year", "Month", "Day", "Hour"]

/-- The columns the correlation matrix is computed over: numeric columns
minus the calendar-derived ones. -/
def corrCols (t : RTable) : List (String × List ℝ) :=
  (numericalCols t).filter (fun c => !(calendarExcluded.contains c.1))

/-- Indexing into the column list ( out-of-range reads give a dummy ). -/
def colAt (cs : List (String × List ℝ)) (i : ℕ) : String × List ℝ :=
  cs.getD i ("", [])

/-- The arithmetic mean of a real column. -/
noncomputable def meanR (xs : List ℝ) : ℝ := xs.sum / xs.length

/-- The Pearson correlation coefficient of two columns, as
`DataFrame.corr()` computes each matrix entry. -/
noncomputable def pearson (xs ys : List ℝ) : ℝ :=
  ((xs.zip ys).map (fun p => (p.1 - meanR xs) * (p.2 - meanR ys))).sum /
    (Real.sqrt ((xs.map (fun x => (x - meanR xs) ^ 2)).sum) *
     Real.sqrt ((ys.map (fun y => (y - meanR ys) ^ 2)).sum))

/-- Rounding to three decimals as the displayed coefficient is rounded. -/
noncomputable def round3 (x : ℝ) : ℝ := (round (x * 1000) : ℤ) / 1000

/-- The strong-correlation loop of `show_correlations` (streamlit_app.py
lines 490–498): for i over the columns, for j over the later columns,
report (column i, column j, rounded coefficient) whenever the absolute
coefficient exceeds the threshold (the app instantiates 0.7). -/
noncomputable def topCorrelations (t : RTable) (th : ℝ) : List (String × String × ℝ) :=
  (List.range (corrCols t).length).flatMap (fun i =>
    (List.range' (i + 1) ((corrCols t).length - (i + 1))).filterMap (fun j =>
      if |pearson (colAt (corrCols t) i).2 (colAt (corrCols t) j).2| > th then
        some ((colAt (corrCols t) i).1, (colAt (corrCols t) j).1,
          round3 (pearson (colAt (corrCols t) i).2 (colAt (corrCols t) j).2))
      else none))

/-- The spec's claimed output order: non-increasing absolute coefficient. -/
def sortedByDescAbs (l : List (String × String × ℝ)) : Prop :=
  l.Pairwise (fun p q => |q.2.2| ≤ |p.2.2|)

/-- Two reported entries that name the same unordered column pair. -/
def sameUnorderedPair (p q : String × String × ℝ) : Prop :=
  (p.1 = q.1 ∧ p.2.1 = q.2.1) ∨ (p.1 = q.2.1 ∧ p.2.1 = q.1)

/-- The index pairs (i, j) with i < j < n, in the loop's row-major order. -/
def upperPairs (n : ℕ) : List (ℕ × ℕ) :=
  (List.range n).flatMap (fun i => (List.range' (i + 1) (n - (i + 1))).map (fun j => (i, j)))

/-- The entry the loop reports for one index pair. -/
noncomputable def corrEntry (cs : List (String × List ℝ)) (ij : ℕ × ℕ) : String × String × ℝ :=
  ((colAt cs ij.1).1, (colAt cs ij.2).1, round3 (pearson (colAt cs ij.1).2 (colAt cs ij.2).2))

/-! ## C2: the explode pipeline -/

/-- C2: `explodeMultiValue` produces exactly one output row per
(original row, individual delimiter-separated value) pair, dropping rows
whose cell is missing; in particular a cell "USA, France" split on ", "
yields two rows identical (same originating index) except that the column holds
"USA" and "France" respectively. -/
theorem explodeMultiValue_spec :
    (∀ (sep : String) (s : StrSeries),
      explodeMultiValue sep s = s.flatMap (fun p =>
        match p.2 with
        | none => []
        | some c => (splitOnSep c sep).map (fun v => (p.1, v))))
    ∧ explodeMultiValue ", " [(0, some "USA, France")] = [(0, "USA"), (0, "France")] := by
  constructor
  · intro sep s
    induction s with
    | nil => rfl
    | cons p rest ih =>
      cases hp : p.2 with
      | none =>
        simp [explodeMultiValue, seriesDropna, seriesSplit, seriesExplode, hp] at ih ⊢
        exact ih
      | some c =>
        simp [explodeMultiValue, seriesDropna, seriesSplit, seriesExplode, hp] at ih ⊢
        exact ih
  · simp only [explodeMultiValue, seriesDropna, seriesSplit, seriesExplode, splitOnSep]
    norm_num
    simp [splitChars]

/-! ## C3 and C4: the guarded filter pipeline -/

/-- Filtering rows never changes the declared column set. -/
theorem filterTable_cols (t : Table) (preds : List Pred) :
    (filterTable t preds).cols = t.cols := by
  induction preds generalizing t with
  | nil => rfl
  | cons p rest ih =>
    by_cases h : p.onCol ∈ t.cols
    · simpa [filterTable, h] using ih _
    · simpa [filterTable, h] using ih _

/-- One step of the filter fold. -/
theorem filterTable_cons (t : Table) (p : Pred) (preds : List Pred) :
    filterTable t (p :: preds)
      = filterTable
          (if p.onCol ∈ t.cols then { t with rows := t.rows.filter (rowSat p) } else t)
          preds := rfl

/-- C3: the filter pipeline applies only the predicates whose column exists
in the table; a predicate on an absent column is skipped silently, and
filtering on a column not present returns the table unchanged, with no
error raised. -/
theorem filterTable_skips_absent :
    (∀ (t : Table) (preds : List Pred),
      filterTable t preds = filterTable t (preds.filter (fun p => decide (p.onCol ∈ t.cols))))
    ∧ ∀ (t : Table) (p : Pred), p.onCol ∉ t.cols → filterTable t [p] = t := by
  constructor
  · intro t preds
    induction preds generalizing t with
    | nil => rfl
    | cons p rest ih =>
      by_cases h : p.onCol ∈ t.cols
      · have hf : List.filter (fun q => decide (q.onCol ∈ t.cols)) (p :: rest)
            = p :: List.filter (fun q => decide (q.onCol ∈ t.cols)) rest :=
          List.filter_cons_of_pos (decide_eq_true h)
        rw [hf, filterTable_cons, if_pos h, filterTable_cons, if_pos h]
        exact ih _
      · have hf : List.filter (fun q => decide (q.onCol ∈ t.cols)) (p :: rest)
            = List.filter (fun q => decide (q.onCol ∈ t.cols)) rest :=
          List.filter_cons_of_neg (by simpa using h)
        rw [hf, filterTable_cons, if_neg h]
        exact ih t
  · intro t p h
    simp [filterTable, h]

/-- C3 witness: a predicate on the absent column "Branch" leaves a concrete
one-column table untouched. -/
theorem filterTable_skips_absent_witness :
    filterTable (Table.mk ["City"] [[("City", Value.str "Yangon")]])
        [Pred.isin "Branch" []]
      = Table.mk ["City"] [[("City", Value.str "Yangon")]] :=
  filterTable_skips_absent.2 _ _ (by decide)

/-- C4: the empty predicate set is the identity on tables, and so is any
predicate set every row of the table satisfies (a predicate allowing all of
its column's values drops nothing, rows with missing cells included). -/
theorem filterTable_empty_id :
    (∀ t : Table, filterTable t [] = t)
    ∧ ∀ (t : Table) (preds : List Pred),
        (∀ p ∈ preds, ∀ r ∈ t.rows, rowSat p r = true) → filterTable t preds = t := by
  constructor
  · intro t
    rfl
  · intro t preds h
    induction preds generalizing t with
    | nil => rfl
    | cons p rest ih =>
      have hall : t.rows.filter (rowSat p) = t.rows :=
        List.filter_eq_self.mpr (fun r hr => h p (by simp) r hr)
      by_cases hc : p.onCol ∈ t.cols
      · simp only [filterTable, List.foldl_cons, if_pos hc, hall]
        exact ih t (fun q hq r hr => h q (by simp [hq]) r hr)
      · simp only [filterTable, List.foldl_cons, if_neg hc]
        exact ih t (fun q hq r hr => h q (by simp [hq]) r hr)

/-- C4 witness: a membership filter listing every value of its column keeps
a concrete table (one of whose filtered cells is missing) unchanged. -/
theorem filterTable_empty_id_witness :
    filterTable (Table.mk ["Age"] [[("Age", Value.num 30)], [("Age", Value.missing)]])
        [Pred.betweenOrNa "Age" 0 80]
      = Table.mk ["Age"] [[("Age", Value.num 30)], [("Age", Value.missing)]] :=
  filterTable_empty_id.2 _ _ (by decide)

/-! ## C5: retention of missing values under each predicate kind -/

/-- Which predicates explicitly allow missing values: the age-range filter
(`between ... | isna`) and the rating filter (`isin ... | isna`). -/
def allowsMissing : Pred → Bool
  | .betweenOrNa _ _ _ => true
  | .isinOrNa _ _ => true
  | _ => false

/-- The membership predicates the apps build never list the missing value
among their options (the option lists come from the data's non-missing
uniques). -/
def noMissingOption : Pred → Prop
  | .isin _ allowed => Value.missing ∉ allowed
  | _ => True

/-- C5: a row whose value is missing in the filtered column is retained
exactly when the predicate explicitly allows missing values (the age-range
and rating filters); every other predicate (membership on type, sex or
class, plain ranges) excludes it. -/
theorem rowSat_missing (p : Pred) (r : Row)
    (hmiss : getCell r p.onCol = Value.missing) (hopt : noMissingOption p) :
    rowSat p r = allowsMissing p := by
  cases p with
  | isin c allowed =>
    simp only [Pred.onCol] at hmiss
    simp only [rowSat, allowsMissing, hmiss]
    simpa using hopt
  | between c lo hi =>
    simp only [Pred.onCol] at hmiss
    simp [rowSat, allowsMissing, hmiss, numBetween]
  | betweenOrNa c lo hi =>
    simp only [Pred.onCol] at hmiss
    simp [rowSat, allowsMissing, hmiss, numBetween]
  | isinOrNa c allowed =>
    simp only [Pred.onCol] at hmiss
    simp [rowSat, allowsMissing, hmiss]

/-- C5 witness: the Titanic age-range filter keeps a row with unknown age;
the theorem applied at that concrete row and predicate. -/
theorem rowSat_missing_witness :
    getCell [("Age", Value.missing)] (Pred.betweenOrNa "Age" 0 80).onCol = Value.missing
    ∧ rowSat (Pred.betweenOrNa "Age" 0 80) [("Age", Value.missing)]
        = allowsMissing (Pred.betweenOrNa "Age" 0 80) :=
  ⟨by decide, rowSat_missing (Pred.betweenOrNa "Age" 0 80) [("Age", Value.missing)]
    (by decide) (by trivial)⟩

/-! ## C6 and C7: aggregation semantics -/

/-- Membership in the keep-first deduplication: an element appears exactly
when it is in the input and not among the already-seen values. -/
theorem mem_dedupFirstAux {α : Type} [DecidableEq α] (l seen : List α) (x : α) :
    x ∈ dedupFirstAux l seen ↔ x ∈ l ∧ x ∉ seen := by
  induction l generalizing seen with
  | nil => simp [dedupFirstAux]
  | cons a rest ih =>
    by_cases h : a ∈ seen
    · rw [dedupFirstAux, if_pos h, ih]
      constructor
      · rintro ⟨hx, hs⟩
        exact ⟨List.mem_cons_of_mem a hx, hs⟩
      · rintro ⟨hx, hs⟩
        rcases List.mem_cons.mp hx with rfl | hx
        · exact absurd h hs
        · exact ⟨hx, hs⟩
    · rw [dedupFirstAux, if_neg h]
      simp only [List.mem_cons, ih]
      constructor
      · rintro (rfl | ⟨hx, hs⟩)
        · exact ⟨Or.inl rfl, h⟩
        · exact ⟨Or.inr hx, fun hc => hs (Or.inr hc)⟩
      · rintro ⟨(rfl | hx), hs⟩
        · exact Or.inl rfl
        · by_cases hxa : x = a
          · exact Or.inl hxa
          · exact Or.inr ⟨hx, fun hc => hc.elim hxa hs⟩

/-- Keep-first deduplication yields no duplicates. -/
theorem nodup_dedupFirstAux {α : Type} [DecidableEq α] (l seen : List α) :
    (dedupFirstAux l seen).Nodup := by
  induction l generalizing seen with
  | nil => simp [dedupFirstAux]
  | cons a rest ih =>
    by_cases h : a ∈ seen
    · rw [dedupFirstAux, if_pos h]
      exact ih seen
    · rw [dedupFirstAux, if_neg h]
      refine List.nodup_cons.mpr ⟨fun hmem => ?_, ih _⟩
      exact ((mem_dedupFirstAux _ _ _).mp hmem).2 (List.mem_cons_self a seen)

/-- Removing the missing cells of a column leaves its numeric contents
unchanged. -/
theorem numsOf_filter_missing (vs : List Value) :
    numsOf (vs.filter (fun v => v != Value.missing)) = numsOf vs := by
  induction vs with
  | nil => rfl
  | cons v rest ih =>
    cases v with
    | num q => simpa [numsOf] using ih
    | str s => simpa [numsOf] using ih
    | missing => simpa [numsOf] using ih

/-- The four-row table of the C6 scenario: one group "g" whose metric
column holds 10, 20, missing, 40. -/
def exT6 : Table :=
  Table.mk ["G", "M"]
    [[("G", Value.str "g"), ("M", Value.num 10)],
     [("G", Value.str "g"), ("M", Value.num 20)],
     [("G", Value.str "g"), ("M", Value.missing)],
     [("G", Value.str "g"), ("M", Value.num 40)]]

/-- C6: every reduction sees only the non-missing values of the metric
column within its group (removing the missing cells changes no reduction,
the sample standard deviation included); in particular the mean of the
group [10, 20, missing, 40] is 70/3 — displayed 23.33 after `.round(2)` —
and not 17.5. -/
theorem aggregate_skip_missing :
    (∀ (red : Reduction) (vs : List Value),
      applyReduction red (vs.filter (fun v => v != Value.missing)) = applyReduction red vs)
    ∧ (∀ vs : List Value,
      stdRed (vs.filter (fun v => v != Value.missing)) = stdRed vs)
    ∧ aggregate exT6 "G" "M" Reduction.mean = [(Value.str "g", some (70 / 3))]
    ∧ round2 (70 / 3) = 2333 / 100
    ∧ ((70 : ℚ) / 3 == 35 / 2) = false := by
  refine ⟨?_, ?_, ?_, ?_, ?_⟩
  · intro red vs
    rw [applyReduction, applyReduction, numsOf_filter_missing]
  · intro vs
    rw [stdRed, stdRed, numsOf_filter_missing]
  · simp [aggregate, groupKeys, groupCells, dedupFirst, dedupFirstAux, getCell,
      List.lookup, applyReduction, numsOf, reduceNum, exT6]
    norm_num
  · norm_num [round2, round_eq]
  · norm_num

/-- The three-row table of the C7 scenario. -/
def exT7 : Table :=
  Table.mk ["type", "release_year"]
    [[("type", Value.str "Movie"), ("release_year", Value.num 2000)],
     [("type", Value.str "Movie"), ("release_year", Value.num 2010)],
     [("type", Value.str "TV Show"), ("release_year", Value.num 2005)]]

/-- C7: the aggregate has exactly one row per distinct group key present in
the table (keys are the distinct non-missing values of the group column,
each appearing once); grouping the scenario's three rows by type with a
row count yields exactly Movie ↦ 2, TV Show ↦ 1. -/
theorem aggregate_one_row_per_key :
    (∀ (t : Table) (g m : String) (red : Reduction),
      (aggregate t g m red).length = (groupKeys t g).length
      ∧ (aggregate t g m red).map Prod.fst = groupKeys t g)
    ∧ (∀ (t : Table) (g : String),
      (groupKeys t g).Nodup
      ∧ ∀ v : Value, v ∈ groupKeys t g ↔
          ((v != Value.missing) = true ∧ v ∈ t.rows.map (fun r => getCell r g)))
    ∧ aggregate exT7 "type" "release_year" Reduction.count
        = [(Value.str "Movie", some 2), (Value.str "TV Show", some 1)] := by
  refine ⟨?_, ?_, ?_⟩
  · intro t g m red
    refine ⟨List.length_map _ _, ?_⟩
    rw [aggregate, List.map_map,
      show (Prod.fst ∘ fun k : Value => (k, applyReduction red (groupCells t g k m))) = id
        from rfl,
      List.map_id]
  · intro t g
    refine ⟨nodup_dedupFirstAux _ _, fun v => ?_⟩
    rw [groupKeys, dedupFirst, mem_dedupFirstAux, List.mem_filter]
    simp [and_comm]
  · simp [aggregate, groupKeys, groupCells, dedupFirst, dedupFirstAux, getCell,
      List.lookup, applyReduction, numsOf, reduceNum, exT7]

/-! ## C8 and C10: the e-commerce cleaning pipeline -/

/-- Every element of a successful traversal is the image of an input
element. -/
theorem traverseOption_mem {α β : Type} (f : α → Option β) :
    ∀ (l : List α) (out : List β), traverseOption f l = some out →
      ∀ y ∈ out, ∃ x ∈ l, f x = some y := by
  intro l
  induction l with
  | nil =>
    intro out h y hy
    simp only [traverseOption, Option.some.injEq] at h
    subst h
    simp at hy
  | cons x xs ih =>
    intro out h y hy
    rcases hfx : f x with _ | y0
    · rw [traverseOption, hfx] at h
      cases h
    · rcases hxs : traverseOption f xs with _ | ys
      · rw [traverseOption, hfx, hxs] at h
        cases h
      · rw [traverseOption, hfx, hxs] at h
        have hout := Option.some.inj h
        subst hout
        rcases List.mem_cons.mp hy with rfl | hmem
        · exact ⟨x, List.mem_cons_self x xs, hfx⟩
        · obtain ⟨x', hx', hfx'⟩ := ih ys hxs y hmem
          exact ⟨x', List.mem_cons_of_mem x hx', hfx'⟩

/-- A traversal whose conversion succeeds on every element succeeds. -/
theorem traverseOption_total {α β : Type} (f : α → Option β) :
    ∀ l : List α, (∀ x ∈ l, (f x).isSome) → ∃ out, traverseOption f l = some out := by
  intro l
  induction l with
  | nil => exact fun _ => ⟨[], rfl⟩
  | cons x xs ih =>
    intro h
    obtain ⟨y0, hy0⟩ := Option.isSome_iff_exists.mp (h x (List.mem_cons_self x xs))
    obtain ⟨ys, hys⟩ := ih (fun z hz => h z (List.mem_cons_of_mem x hz))
    exact ⟨y0 :: ys, by simp [traverseOption, hy0, hys]⟩

/-- A traversal of a duplicate-free list under a conversion injective on it
is duplicate-free. -/
theorem traverseOption_nodup {α β : Type} (f : α → Option β) :
    ∀ (l : List α) (out : List β), traverseOption f l = some out → l.Nodup →
      (∀ x ∈ l, ∀ y ∈ l, f x = f y → x = y) → out.Nodup := by
  intro l
  induction l with
  | nil =>
    intro out h _ _
    simp only [traverseOption, Option.some.injEq] at h
    subst h
    exact List.nodup_nil
  | cons x xs ih =>
    intro out h hnd hinj
    rcases hfx : f x with _ | y0
    · rw [traverseOption, hfx] at h
      cases h
    rcases hxs : traverseOption f xs with _ | ys
    · rw [traverseOption, hfx, hxs] at h
      cases h
    rw [traverseOption, hfx, hxs] at h
    have hout := Option.some.inj h
    subst hout
    rcases List.nodup_cons.mp hnd with ⟨hxmem, hnd'⟩
    refine List.nodup_cons.mpr ⟨fun hy0 => ?_, ?_⟩
    · obtain ⟨x', hx', hfx'⟩ := traverseOption_mem f xs ys hxs y0 hy0
      have : x = x' :=
        hinj x (List.mem_cons_self x xs) x' (List.mem_cons_of_mem x hx') (hfx.trans hfx'.symm)
      exact hxmem (this ▸ hx')
    · exact ih ys hxs hnd'
        (fun a ha b hb => hinj a (List.mem_cons_of_mem x ha) b (List.mem_cons_of_mem x hb))

/-- The derived fields of a converted row, for any date parser. -/
theorem convertRow_fields (parse : String → Option DateT) (r : ERow) (r' : ECRow)
    (h : convertRow parse r = some r') :
    r'.totalPrice = r'.quantity * r'.unitPrice
    ∧ r'.year = r'.invoiceDate.year ∧ r'.month = r'.invoiceDate.month := by
  rcases hc : r.customerID with _ | q <;> rcases hd : parse r.invoiceDate with _ | d <;>
    simp only [convertRow, hc, hd] at h
  · cases h
  · cases h
  · cases h
  · cases h
    exact ⟨rfl, rfl, rfl⟩

/-- Rows only pass through the filter pipeline: every output row is an
input row, cells untouched. -/
theorem filterTable_rows_sub (t : Table) (preds : List Pred) :
    ∀ r ∈ (filterTable t preds).rows, r ∈ t.rows := by
  induction preds generalizing t with
  | nil => exact fun r hr => hr
  | cons p rest ih =>
    intro r hr
    rw [filterTable_cons] at hr
    by_cases h : p.onCol ∈ t.cols
    · rw [if_pos h] at hr
      exact List.mem_of_mem_filter (ih _ r hr)
    · rw [if_neg h] at hr
      exact ih t r hr

/-- C8: every derived column is computed at load/clean time from existing
source columns — each cleaned row's TotalPrice equals Quantity × UnitPrice
and its Year/Month come from its timestamp; the retail loader derives
Year/Month/Day from Date and Hour from Time; and no later filter modifies
any cell, since every filtered row is an original row. -/
theorem derived_columns_spec :
    (∀ (parse : String → Option DateT) (rows : List ERow) (out : List ECRow),
      cleanData parse rows = some out →
      ∀ r' ∈ out, r'.totalPrice = r'.quantity * r'.unitPrice
        ∧ r'.year = r'.invoiceDate.year ∧ r'.month = r'.invoiceDate.month)
    ∧ (∀ (rows : List RetSrcRow), ∀ r' ∈ loadRetail rows,
        r'.year = r'.date.year ∧ r'.month = r'.date.month
        ∧ r'.day = r'.date.day ∧ r'.hour = r'.timeHour)
    ∧ (∀ (t : Table) (preds : List Pred), ∀ r ∈ (filterTable t preds).rows, r ∈ t.rows) := by
  refine ⟨?_, ?_, ?_⟩
  · intro parse rows out h r' hr'
    obtain ⟨x, _, hfx⟩ := traverseOption_mem (convertRow parse) _ out h r' hr'
    exact convertRow_fields parse x r' hfx
  · intro rows r' hr'
    obtain ⟨x, _, rfl⟩ := List.mem_map.mp hr'
    exact ⟨rfl, rfl, rfl, rfl⟩
  · exact fun t preds => filterTable_rows_sub t preds

/-- Shorthand for the filled-description cleaning step. -/
def fillDesc (r : ERow) : ERow :=
  { r with description := some (r.description.getD "No Description") }

/-- C10 (amended): when every row's `InvoiceDate` string parses,
`clean_data` succeeds (no missing CustomerID survives to the integer
conversion, so the output also has none and its CustomerID column is
integer-valued by construction); and the output has no duplicate rows
provided additionally every present CustomerID is integral — as the real
data's float-encoded integer ids are — and no two distinct `InvoiceDate`
strings parse to the same timestamp (deduplication compares the raw
strings, conversion the parsed values). -/
theorem cleanData_no_dups (parse : String → Option DateT) (rows : List ERow)
    (hparse : ∀ r ∈ rows, (parse r.invoiceDate).isSome)
    (hint : ∀ r ∈ rows, (r.customerID.getD 0).den = 1)
    (hinj : ∀ r ∈ rows, ∀ r' ∈ rows,
      parse r.invoiceDate = parse r'.invoiceDate → r.invoiceDate = r'.invoiceDate) :
    ∃ out, cleanData parse rows = some out ∧ out.Nodup := by
  classical
  set s1 := rows.filter (fun r => r.customerID.isSome) with hs1
  set s2 := s1.map fillDesc with hs2
  set s3 := dedupFirst s2 with hs3
  have hmem3 : ∀ x ∈ s3, ∃ r ∈ rows, x = fillDesc r ∧ r.customerID.isSome := by
    intro x hx
    have hx2 : x ∈ s2 := ((mem_dedupFirstAux s2 [] x).mp hx).1
    obtain ⟨r, hr1, rfl⟩ := List.mem_map.mp hx2
    exact ⟨r, List.mem_of_mem_filter hr1, rfl, (List.mem_filter.mp hr1).2⟩
  have hpar3 : ∀ x ∈ s3, (parse x.invoiceDate).isSome := by
    intro x hx
    obtain ⟨r, hr, rfl, _⟩ := hmem3 x hx
    simpa [fillDesc] using hparse r hr
  have hsome : ∀ x ∈ s3, (convertRow parse x).isSome := by
    intro x hx
    obtain ⟨r, hr, rfl, hid⟩ := hmem3 x hx
    obtain ⟨q, hq⟩ := Option.isSome_iff_exists.mp hid
    obtain ⟨d, hd⟩ := Option.isSome_iff_exists.mp (hparse r hr)
    simp [convertRow, fillDesc, hq, hd]
  have hden : ∀ x ∈ s3, ∀ q, x.customerID = some q → q.den = 1 := by
    intro x hx q hq
    obtain ⟨r, hr, rfl, _⟩ := hmem3 x hx
    have : r.customerID = some q := hq
    simpa [this] using hint r hr
  have hdesc : ∀ x ∈ s3, x.description.isSome := by
    intro x hx
    obtain ⟨r, _, rfl, _⟩ := hmem3 x hx
    simp [fillDesc]
  have hinj3 : ∀ x ∈ s3, ∀ y ∈ s3,
      parse x.invoiceDate = parse y.invoiceDate → x.invoiceDate = y.invoiceDate := by
    intro x hx y hy hp
    obtain ⟨r, hr, rfl, _⟩ := hmem3 x hx
    obtain ⟨r', hr', rfl, _⟩ := hmem3 y hy
    simp only [fillDesc] at hp ⊢
    exact hinj r hr r' hr' hp
  obtain ⟨out, hout⟩ := traverseOption_total (convertRow parse) s3 hsome
  refine ⟨out, hout, ?_⟩
  refine traverseOption_nodup (convertRow parse) s3 out hout (nodup_dedupFirstAux _ _) ?_
  intro x hx y hy hxy
  have hidx : x.customerID.isSome := by
    obtain ⟨r, _, rfl, hid⟩ := hmem3 x hx
    simpa [fillDesc] using hid
  have hidy : y.customerID.isSome := by
    obtain ⟨r, _, rfl, hid⟩ := hmem3 y hy
    simpa [fillDesc] using hid
  obtain ⟨qx, hqx⟩ := Option.isSome_iff_exists.mp hidx
  obtain ⟨qy, hqy⟩ := Option.isSome_iff_exists.mp hidy
  obtain ⟨dx, hdx⟩ := Option.isSome_iff_exists.mp (hdesc x hx)
  obtain ⟨dy, hdy⟩ := Option.isSome_iff_exists.mp (hdesc y hy)
  obtain ⟨ddx, hddx⟩ := Option.isSome_iff_exists.mp (hpar3 x hx)
  obtain ⟨ddy, hddy⟩ := Option.isSome_iff_exists.mp (hpar3 y hy)
  have hqdenx : qx.den = 1 := hden x hx qx hqx
  have hqdeny : qy.den = 1 := hden y hy qy hqy
  have hinjxy := hinj3 x hx y hy
  rcases x with ⟨xin, xsc, xde, xq, xdt, xup, xid, xco⟩
  rcases y with ⟨yin, ysc, yde, yq, ydt, yup, yid, yco⟩
  simp only at hqx hqy hdx hdy hddx hddy hinjxy
  subst hqx
  subst hqy
  subst hdx
  subst hdy
  simp only [convertRow, hddx, hddy, Option.getD, Option.some.injEq, ECRow.mk.injEq] at hxy
  obtain ⟨h1, h2, h3, h4, h5, h6, h7, h8, -⟩ := hxy
  have hdateq : xdt = ydt := hinjxy (by rw [hddx, hddy, h5])
  have hnum : qx.num = qy.num := by
    have h7' := h7
    simp only [astypeInt, hqdenx, hqdeny, Nat.cast_one, Int.ediv_one] at h7'
    exact h7'
  have hq : qx = qy := Rat.ext hnum (hqdenx.trans hqdeny.symm)
  subst h1
  subst h2
  subst h3
  subst h4
  subst h6
  subst h8
  subst hq
  subst hdateq
  rfl

/-- A concrete date parser standing for `pd.to_datetime`, defined on the
one date string the concrete rows below use. -/
def wParse : String → Option DateT := fun s =>
  if s = "12/1/2010 8:26" then some (DateT.mk 2010 12 1) else none

/-- A concrete `OnlineRetail.csv`-shaped row with an integral CustomerID
and a parseable date string. -/
def wRows10 : List ERow :=
  [{ invoiceNo := "536365", stockCode := "85123A",
     description := some "WHITE HANGING HEART T-LIGHT HOLDER",
     quantity := 6, invoiceDate := "12/1/2010 8:26", unitPrice := 2,
     customerID := some 17850, country := "United Kingdom" }]

/-- C10 witness: on a concrete one-row table whose date string parses,
whose CustomerID is integral, and whose date strings are parsed
injectively, cleaning succeeds and the result is duplicate-free. -/
theorem cleanData_no_dups_witness :
    (∀ r ∈ wRows10, (wParse r.invoiceDate).isSome)
    ∧ (∀ r ∈ wRows10, (r.customerID.getD 0).den = 1)
    ∧ (∀ r ∈ wRows10, ∀ r' ∈ wRows10,
        wParse r.invoiceDate = wParse r'.invoiceDate → r.invoiceDate = r'.invoiceDate)
    ∧ ∃ out, cleanData wParse wRows10 = some out ∧ out.Nodup :=
  ⟨by decide, by decide, by decide,
    cleanData_no_dups wParse wRows10 (by decide) (by decide) (by decide)⟩

/-- The rational 3/2, written by its normal form so that its fields
compute. -/
def halfId : ℚ := ⟨3, 2, by decide, by decide⟩

/-- A cleaned-input row whose CustomerID is the integer 1. -/
def cexRowA : ERow :=
  { invoiceNo := "1", stockCode := "S", description := some "D", quantity := 1,
    invoiceDate := "12/1/2010 8:26", unitPrice := 1, customerID := some 1, country := "UK" }

/-- The same row with CustomerID 1.5: a distinct row that truncates to the
same integer id. -/
def cexRowB : ERow := { cexRowA with customerID := some halfId }

/-- The common image of both rows after `astype(int)`, `to_datetime` and
the derived columns. -/
def cexOut : ECRow :=
  { invoiceNo := "1", stockCode := "S", description := "D", quantity := 1,
    invoiceDate := DateT.mk 2010 12 1, unitPrice := 1, customerID := 1, country := "UK",
    year := 2010, month := 12, totalPrice := 1 }

/-- C10 counterexample: `drop_duplicates` runs before the conversions, so
two distinct input rows whose CustomerIDs differ only in the fractional
part (1 and 1.5) both survive deduplication and convert to the same
cleaned row — the output contains a duplicate row. -/
theorem cleanData_dup_cex :
    cleanData wParse [cexRowA, cexRowB] = some [cexOut, cexOut]
    ∧ ¬ ([cexOut, cexOut] : List ECRow).Nodup := by
  constructor
  · simp only [cleanData, wParse, cexRowA, cexRowB, halfId, List.filter, Option.isSome,
      List.map, Option.getD, dedupFirst, dedupFirstAux, traverseOption, convertRow,
      astypeInt, cexOut]
    norm_num
  · decide

/-! ## C9: empty filter results and the downstream views -/

/-- C9 counterexample: on an empty filter result the key-metrics survival
rate is rendered as a metric holding a missing value (`NaN`), not as a
"no data" message. -/
theorem survivalRateMetric_empty_cex :
    survivalRateMetric [] = ViewOut.metricOut none
    ∧ isNoData (survivalRateMetric []) = false := by
  exact ⟨rfl, rfl⟩

/-- C9 (amended): when a filter combination yields zero rows, the survival
heatmap view degrades gracefully to its non-fatal "no data" warning, while
the key-metrics survival rate renders a metric with a missing value rather
than a message; both remain total (no failure, no session termination). -/
theorem empty_filter_views (t : Table) (preds : List Pred)
    (h : (filterTable t preds).rows = []) :
    pivotHeatmap (filterTable t preds).rows
      = ViewOut.noData "No data available for heatmap with current filters."
    ∧ survivalRateMetric (filterTable t preds).rows = ViewOut.metricOut none := by
  rw [h]
  exact ⟨rfl, rfl⟩

/-- A concrete table and predicate set whose filtered result is empty. -/
def wT9 : Table := Table.mk ["Sex"] [[("Sex", Value.str "male")]]

/-- The predicate deselecting every Sex value. -/
def wP9 : List Pred := [Pred.isin "Sex" []]

/-- C9 witness: the amended statement at a concrete emptying filter. -/
theorem empty_filter_views_witness :
    ((filterTable wT9 wP9).rows = [])
    ∧ (pivotHeatmap (filterTable wT9 wP9).rows
        = ViewOut.noData "No data available for heatmap with current filters."
      ∧ survivalRateMetric (filterTable wT9 wP9).rows = ViewOut.metricOut none) :=
  ⟨by decide, empty_filter_views wT9 wP9 (by decide)⟩

/-! ## C1: the strong-correlation report -/

/-- The loop's visit order on index pairs: lexicographic. -/
def pairLexLt (a b : ℕ × ℕ) : Prop := a.1 < b.1 ∨ (a.1 = b.1 ∧ a.2 < b.2)

/-- A conditional `filterMap` is a filter of the mapped list followed by a
map. -/
theorem filterMap_if {α β γ : Type} (l : List α) (f : α → β) (P : β → Prop) [DecidablePred P]
    (g : β → γ) :
    l.filterMap (fun a => if P (f a) then some (g (f a)) else none)
      = ((l.map f).filter (fun b => decide (P b))).map g := by
  induction l with
  | nil => rfl
  | cons a rest ih =>
    by_cases h : P (f a)
    · simp [h, ih]
    · simp [h, ih]

/-- The loop visits exactly the index pairs i < j < n. -/
theorem mem_upperPairs (n i j : ℕ) : (i, j) ∈ upperPairs n ↔ i < j ∧ j < n := by
  constructor
  · intro h
    obtain ⟨a, ha, hmem⟩ := List.mem_flatMap.mp h
    obtain ⟨j', hj', he⟩ := List.mem_map.mp hmem
    injection he with h1 h2
    subst h1
    subst h2
    have han := List.mem_range.mp ha
    have hj2 := List.mem_range'_1.mp hj'
    omega
  · intro ⟨hij, hjn⟩
    refine List.mem_flatMap.mpr ⟨i, List.mem_range.mpr (lt_trans hij hjn), ?_⟩
    refine List.mem_map.mpr ⟨j, List.mem_range'_1.mpr ⟨hij, ?_⟩, rfl⟩
    omega

/-- The loop's index pairs come out in strictly increasing lexicographic
order. -/
theorem pairwise_upperPairs (n : ℕ) : (upperPairs n).Pairwise pairLexLt := by
  have key : ∀ l : List ℕ, l.Pairwise (· < ·) →
      (l.flatMap (fun i => (List.range' (i + 1) (n - (i + 1))).map (fun j => (i, j)))).Pairwise
        pairLexLt := by
    intro l hl
    induction l with
    | nil => simp
    | cons a rest ih =>
      rcases List.pairwise_cons.mp hl with ⟨hhead, htail⟩
      rw [List.flatMap_cons]
      refine List.pairwise_append.mpr ⟨?_, ih htail, ?_⟩
      · refine List.pairwise_map.mpr ?_
        exact (List.pairwise_lt_range' _ _).imp (fun h => Or.inr ⟨rfl, h⟩)
      · intro x hx y hy
        obtain ⟨jx, _, rfl⟩ := List.mem_map.mp hx
        obtain ⟨b, hb, hyb⟩ := List.mem_flatMap.mp hy
        obtain ⟨jy, _, rfl⟩ := List.mem_map.mp hyb
        exact Or.inl (hhead b hb)
  exact key _ (List.pairwise_lt_range n)

/-- Distinct column indices carry distinct names when the column names are
duplicate-free. -/
theorem colAt_fst_ne (cs : List (String × List ℝ)) (hnd : (cs.map Prod.fst).Nodup)
    {i k : ℕ} (hi : i < cs.length) (hk : k < cs.length) (hik : i ≠ k) :
    (colAt cs i).1 ≠ (colAt cs k).1 := by
  intro he
  rw [colAt, colAt, List.getD_eq_getElem _ _ hi, List.getD_eq_getElem _ _ hk] at he
  have hi' : i < (cs.map Prod.fst).length := by simpa using hi
  have hk' : k < (cs.map Prod.fst).length := by simpa using hk
  have hmm : (cs.map Prod.fst)[i] = (cs.map Prod.fst)[k] := by
    rw [List.getElem_map, List.getElem_map]
    exact he
  exact hik (List.Nodup.getElem_inj_iff hnd |>.mp hmm)

/-- C1 (amended): for every table and threshold, the report is exactly the
filter of the upper-triangular index pairs (i < j over the non-calendar
numeric columns) by "absolute Pearson coefficient exceeds the threshold",
each entry naming column i before column j in original column order; the
pairs come out in the loop's column-index order (not sorted by descending
absolute coefficient), no unordered pair is reported twice (given
duplicate-free column names), and every reported entry's coefficient
exceeds the threshold in absolute value. -/
theorem topCorrelations_characterization (t : RTable) (th : ℝ)
    (hnames : ((corrCols t).map Prod.fst).Nodup) :
    topCorrelations t th
      = ((upperPairs (corrCols t).length).filter
          (fun ij =>
            decide (|pearson (colAt (corrCols t) ij.1).2 (colAt (corrCols t) ij.2).2| > th))).map
          (corrEntry (corrCols t))
    ∧ (∀ i j : ℕ, (i, j) ∈ upperPairs (corrCols t).length ↔ i < j ∧ j < (corrCols t).length)
    ∧ (upperPairs (corrCols t).length).Pairwise pairLexLt
    ∧ (topCorrelations t th).Pairwise (fun p q => ¬ sameUnorderedPair p q)
    ∧ ∀ p ∈ topCorrelations t th, ∃ i j : ℕ, i < j ∧ j < (corrCols t).length
        ∧ p = corrEntry (corrCols t) (i, j)
        ∧ |pearson (colAt (corrCols t) i).2 (colAt (corrCols t) j).2| > th := by
  have heq : topCorrelations t th = ((upperPairs (corrCols t).length).filter
      (fun ij =>
        decide (|pearson (colAt (corrCols t) ij.1).2 (colAt (corrCols t) ij.2).2| > th))).map
      (corrEntry (corrCols t)) := by
    rw [topCorrelations, upperPairs, List.filter_flatMap, List.map_flatMap]
    exact congrArg (List.flatMap (List.range (corrCols t).length)) (funext fun i =>
      filterMap_if (List.range' (i + 1) ((corrCols t).length - (i + 1))) (fun j => (i, j))
        (fun ij => |pearson (colAt (corrCols t) ij.1).2 (colAt (corrCols t) ij.2).2| > th)
        (corrEntry (corrCols t)))
  refine ⟨heq, fun i j => mem_upperPairs _ i j, pairwise_upperPairs _, ?_, ?_⟩
  · rw [heq]
    refine List.pairwise_map.mpr ?_
    refine List.Pairwise.imp_of_mem ?_ (List.Pairwise.filter _ (pairwise_upperPairs _))
    rintro ⟨i, j⟩ ⟨k, l⟩ ha hb hab hsame
    obtain ⟨hij, hjn⟩ := (mem_upperPairs _ _ _).mp (List.mem_of_mem_filter ha)
    obtain ⟨hkl, hln⟩ := (mem_upperPairs _ _ _).mp (List.mem_of_mem_filter hb)
    simp only [sameUnorderedPair, corrEntry] at hsame
    rcases hab with hik | ⟨heq2, hjl⟩
    · rcases hsame with ⟨e1, e2⟩ | ⟨e1, e2⟩
      · exact colAt_fst_ne _ hnames (by omega) (by omega) (by omega) e1
      · exact colAt_fst_ne _ hnames (by omega) (by omega) (by omega) e1
    · rcases hsame with ⟨e1, e2⟩ | ⟨e1, e2⟩
      · exact colAt_fst_ne _ hnames (by omega) (by omega) (by omega) e2
      · exact colAt_fst_ne _ hnames (by omega) (by omega) (by omega) e1
  · intro p hp
    rw [heq] at hp
    obtain ⟨ij, hijmem, rfl⟩ := List.mem_map.mp hp
    rcases ij with ⟨i, j⟩
    obtain ⟨hij, hjn⟩ := (mem_upperPairs _ _ _).mp (List.mem_of_mem_filter hijmem)
    have hq := List.of_mem_filter hijmem
    exact ⟨i, j, hij, hjn, rfl, of_decide_eq_true hq⟩

/-- The three-column table of the C1 counterexample: A = [0,1,2,3],
B = [0,2,6,4], C = [0,2,4,6], giving Pearson coefficients
r(A,B) = 0.8, r(A,C) = 1, r(B,C) = 0.8. -/
noncomputable def exT1 : RTable :=
  [("A", RColData.nums [0, 1, 2, 3]),
   ("B", RColData.nums [0, 2, 6, 4]),
   ("C", RColData.nums [0, 2, 4, 6])]

/-- A square-root product evaluated through its square. -/
theorem sqrt_mul_eval {vx vy r : ℝ} (h : 0 ≤ vx) (hr : 0 ≤ r) (hprod : vx * vy = r ^ 2) :
    Real.sqrt vx * Real.sqrt vy = r := by
  rw [← Real.sqrt_mul h, hprod, Real.sqrt_sq hr]

/-- The A–B coefficient of the counterexample table. -/
theorem pearson_AB : pearson [0, 1, 2, 3] [0, 2, 6, 4] = 4 / 5 := by
  have h : Real.sqrt 5 * Real.sqrt 20 = 10 :=
    sqrt_mul_eval (by norm_num) (by norm_num) (by norm_num)
  unfold pearson meanR
  norm_num [List.zip]
  rw [h]
  norm_num

/-- The A–C coefficient of the counterexample table. -/
theorem pearson_AC : pearson [0, 1, 2, 3] [0, 2, 4, 6] = 1 := by
  have h : Real.sqrt 5 * Real.sqrt 20 = 10 :=
    sqrt_mul_eval (by norm_num) (by norm_num) (by norm_num)
  unfold pearson meanR
  norm_num [List.zip]
  rw [h]
  norm_num

/-- The B–C coefficient of the counterexample table. -/
theorem pearson_BC : pearson [0, 2, 6, 4] [0, 2, 4, 6] = 4 / 5 := by
  unfold pearson meanR
  norm_num [List.zip]

/-- Three-decimal rounding is exact at 4/5. -/
theorem round3_eval1 : round3 (4 / 5) = 4 / 5 := by
  norm_num [round3, round_eq]

/-- Three-decimal rounding is exact at 1. -/
theorem round3_eval2 : round3 1 = 1 := by
  norm_num [round3, round_eq]

/-- The correlation columns of the counterexample table. -/
theorem corrCols_exT1 : corrCols exT1
    = [("A", [0, 1, 2, 3]), ("B", [0, 2, 6, 4]), ("C", [0, 2, 4, 6])] := rfl

/-- The loop's full output on the counterexample table at the app's 0.7
threshold, in loop order. -/
theorem topCorr_exT1 : topCorrelations exT1 (7 / 10)
    = [("A", "B", 4 / 5), ("A", "C", 1), ("B", "C", 4 / 5)] := by
  have hr3 : List.range 3 = [0, 1, 2] := by decide
  have hra : List.range' 1 2 = [1, 2] := by decide
  have hrb : List.range' 2 1 = [2] := by decide
  have hrc : List.range' 3 0 = [] := by decide
  have a0 : colAt [("A", [0, 1, 2, 3]), ("B", [0, 2, 6, 4]), ("C", [0, 2, 4, 6])] 0
      = ("A", [(0:ℝ), 1, 2, 3]) := rfl
  have a1 : colAt [("A", [0, 1, 2, 3]), ("B", [0, 2, 6, 4]), ("C", [0, 2, 4, 6])] 1
      = ("B", [(0:ℝ), 2, 6, 4]) := rfl
  have a2 : colAt [("A", [0, 1, 2, 3]), ("B", [0, 2, 6, 4]), ("C", [0, 2, 4, 6])] 2
      = ("C", [(0:ℝ), 2, 4, 6]) := rfl
  have habs1 : |(4 / 5 : ℝ)| = 4 / 5 := abs_of_pos (by norm_num)
  have habs2 : |(1 : ℝ)| = 1 := abs_of_pos (by norm_num)
  have hlen : ([("A", [(0:ℝ), 1, 2, 3]), ("B", [0, 2, 6, 4]), ("C", [0, 2, 4, 6])]
      : List (String × List ℝ)).length = 3 := rfl
  simp only [topCorrelations, corrCols_exT1, hlen]
  norm_num [hr3, hra, hrb, hrc]
  simp only [List.flatMap_cons, List.flatMap_nil, List.filterMap_cons, List.filterMap_nil,
    a0, a1, a2, pearson_AB, pearson_AC, pearson_BC, round3_eval1, round3_eval2,
    habs1, habs2, List.append_nil]
  norm_num

/-- C1 counterexample: at the app's own 0.7 threshold the counterexample
table's report lists (A, B, 0.8) before (A, C, 1) — the loop emits pairs in
column-index order, so the output is not ordered by descending absolute
coefficient. -/
theorem topCorrelations_not_desc_cex :
    topCorrelations exT1 (7 / 10) = [("A", "B", 4 / 5), ("A", "C", 1), ("B", "C", 4 / 5)]
    ∧ ¬ sortedByDescAbs (topCorrelations exT1 (7 / 10)) := by
  refine ⟨topCorr_exT1, ?_⟩
  rw [topCorr_exT1, sortedByDescAbs]
  intro h
  rcases List.pairwise_cons.mp h with ⟨h1, -⟩
  have h2 := h1 ("A", "C", 1) (by simp)
  simp only at h2
  rw [abs_of_pos (by norm_num : (0:ℝ) < 1), abs_of_pos (by norm_num : (0:ℝ) < 4/5)] at h2
  norm_num at h2

/-- C1 witness: the characterization applied to the concrete counterexample
table, whose column names are duplicate-free, at the app's threshold. -/
theorem topCorrelations_characterization_witness :
    (((corrCols exT1).map Prod.fst).Nodup)
    ∧ (topCorrelations exT1 (7 / 10)).Pairwise (fun p q => ¬ sameUnorderedPair p q) :=
  ⟨by decide, (topCorrelations_characterization exT1 (7 / 10) (by decide)).2.2.2.1⟩

end Dash
